import Mathlib

set_option maxHeartbeats 1000000

/-!
Verification of the EVMC example VM (`examples/example_vm/example_vm.cpp`)
against its natural-language specification.  The interpreter is embedded
shallowly: machine bytes are `Fin 256`, 256-bit big-endian words are 32-byte
lists, the stack and memory are modelled exactly as in the source (an
unchecked pointer into an array, an unchecked byte buffer), and the host is a
record of pure response functions.  Reads of uninitialized or out-of-bounds
stack slots (undefined behaviour in the C++ source) are modelled by a caller
supplied junk function giving the contents of every never-pushed slot.
-/

namespace ExampleVM

/-- A machine byte, the C++ `uint8_t`: arithmetic wraps modulo 256. -/
abbrev Byte := Fin 256

/-- A 256-bit big-endian word (`evmc_uint256be.bytes`): 32 bytes, index 0 the
most significant.  Well-formed words have length 32; every word the
interpreter itself constructs does. -/
abbrev Word := List Byte

/-- The low byte `w.bytes[31]` of a word. -/
def byte31 (w : Word) : Byte := w.getD 31 0

/-- The all-zero word, `evmc_uint256be value = {}`. -/
def zeroWord : Word := List.replicate 32 (0 : Byte)

/-- A word whose only nonzero byte is `bytes[31] = b`. -/
def wordOfByte (b : Byte) : Word := List.replicate 31 (0 : Byte) ++ [b]

/-- Truncating cast of an unsigned machine quantity to `uint8_t`. -/
def natToByte (n : Nat) : Byte := ⟨n % 256, Nat.mod_lt _ (by norm_num)⟩

/-- Truncating cast of a signed 64-bit quantity to `uint8_t` (two's-complement
wrap, as in `static_cast<uint8_t>`). -/
def intToByte (z : Int) : Byte :=
  ⟨(z % 256).toNat, by
    have h1 : 0 ≤ z % 256 := Int.emod_nonneg z (by norm_num)
    have h2 : z % 256 < 256 := Int.emod_lt_of_pos z (by norm_num)
    omega⟩

/-- Status codes of an execution result (`evmc_status_code`).  The source VM
only ever constructs the first four; the spec's error taxonomy additionally
names `StackUnderflow` and `MemoryBoundsExceeded`. -/
inductive Status where
  | Success
  | Revert
  | OutOfGas
  | UndefinedInstruction
  | StackUnderflow
  | MemoryBoundsExceeded
deriving DecidableEq

/-- The fields of `evmc_result` used by the example VM: status code, remaining
gas, and the output bytes (copied out of VM memory by `evmc_make_result`). -/
structure EResult where
  status : Status
  gasLeft : Int
  output : List Byte
deriving DecidableEq

/-- The field of `evmc_tx_context` used by the example VM: the block number
(`int64_t`). -/
structure TxContext where
  blockNumber : Int
deriving DecidableEq

/-- The fields of a nested call's `evmc_result` used by the example VM.
`hasRelease` records whether the result carries a release callback
(`call_result.release != nullptr`), i.e. an output buffer that must be
released. -/
structure CallResult where
  status : Status
  gasLeft : Int
  output : List Byte
  hasRelease : Bool
deriving DecidableEq

/-- The fields of the nested `evmc_message` the CALL case constructs:
gas, 20-byte destination address, value word, and the input bytes taken from
the caller's memory. -/
structure CallMsg where
  gas : Int
  destination : List Byte
  value : Word
  input : List Byte
deriving DecidableEq

/-- The host capability interface (`evmc_host_interface`) as used by the
example VM, modelled as pure response functions: `get_storage(addr, key)`,
`get_tx_context()`, and `call(msg)`.  `set_storage` mutates only host-side
state, which is external to the interpreter and not modelled. -/
structure Host where
  getStorage : List Byte → Word → Word
  getTxContext : TxContext
  call : CallMsg → CallResult

/-- The fields of the incoming `evmc_message` used by the example VM:
20-byte destination address, input data, and the gas budget (`int64_t`). -/
structure Msg where
  destination : List Byte
  input : List Byte
  gas : Int

/-- The Example VM stack (source lines 71-82): a 1024-slot array of words and
a pointer to the first empty slot.  The source checks no bounds and leaves the
array uninitialized, so the model keeps the contents as a total function on
`Int` indexes; slots never pushed hold arbitrary junk fixed at
initialization. -/
structure Stack where
  sp : Int
  vals : Int → Word

/-- `Stack::pop`: `return *--pointer;` — decrement the pointer and read,
with no underflow check. -/
def Stack.pop (s : Stack) : Word × Stack :=
  (s.vals (s.sp - 1), { s with sp := s.sp - 1 })

/-- `Stack::push`: `*pointer++ = value;` — write at the pointer and
increment, with no overflow check. -/
def Stack.push (s : Stack) (v : Word) : Stack :=
  { sp := s.sp + 1, vals := fun i => if i = s.sp then v else s.vals i }

/-- The Example VM memory (source lines 84-100): a high-water `size` and a
fixed 1024-byte zero-initialized buffer.  The buffer is modelled as a total
function on `Nat` so that the unchecked writes of `Memory::set` can be
observed even past index 1023. -/
structure Memory where
  size : Nat
  data : Nat → Byte

/-- `Memory::set` (source lines 93-99): `memcpy(&data[index], value_data,
value_size)` followed by the high-water update `size = max(size, index +
value_size)`.  No bounds are checked; the `index + value_size` sum is `size_t`
arithmetic, hence taken modulo 2^64. -/
def Memory.set (m : Memory) (index : Nat) (value : List Byte) (value_size : Nat) : Memory :=
  let data := fun i => if index ≤ i ∧ i < index + value_size then value.getD (i - index) 0 else m.data i
  let new_size := (index + value_size) % 2 ^ 64
  { size := if new_size > m.size then new_size else m.size, data := data }

/-- Reading `len` bytes of the memory buffer starting at `index`: the bytes a
pointer `&memory.data[index]` with length `len` denotes (used for RETURN /
REVERT / CALL-input slices). -/
def Memory.read (m : Memory) (index len : Nat) : List Byte :=
  (List.range len).map fun i => m.data (index + i)

/-- The mutable state of one execution: program counter, remaining gas, stack,
memory, and the number of nested-call results acquired but not yet released
(for auditing the release obligation of source lines 253-254). -/
structure EState where
  pc : Nat
  gasLeft : Int
  stack : Stack
  memory : Memory
  unreleased : Nat

/-- The instructions of the example VM's dispatch switch (source lines
127-274), plus `undefined` for the `default` label. -/
inductive Instr where
  | stop
  | add
  | address
  | calldataload
  | number
  | mstore
  | sload
  | sstore
  | msize
  | push1
  | dup1
  | call
  | ret
  | revert
  | undefined
deriving DecidableEq

/-- Decode one code byte to its switch case (the case labels of source lines
127-274). -/
def decode (b : Byte) : Instr :=
  match b.val with
  | 0x00 => .stop
  | 0x01 => .add
  | 0x30 => .address
  | 0x35 => .calldataload
  | 0x43 => .number
  | 0x52 => .mstore
  | 0x54 => .sload
  | 0x55 => .sstore
  | 0x59 => .msize
  | 0x60 => .push1
  | 0x80 => .dup1
  | 0xf1 => .call
  | 0xf3 => .ret
  | 0xfd => .revert
  | _ => .undefined

/-- The revision value `EVMC_BYZANTIUM` of the `evmc_revision` enum. -/
def EVMC_BYZANTIUM : Int := 4

/-- One step's outcome: continue in a new state, or halt with a result. -/
inductive StepRes where
  | cont (s : EState)
  | halt (r : EResult)

/-- The body of one switch case, executed after the gas charge, on the state
`s` whose `gasLeft` has already been decremented.  Each arm is a direct
transcription of the corresponding case of source lines 127-274. -/
def exec (host : Host) (msg : Msg) (rev : Int) (code : List Byte) (s : EState) :
    Instr → StepRes
  | .stop =>
    .halt ⟨.Success, s.gasLeft, []⟩
  | .add =>
    let (a, st1) := s.stack.pop
    let (b, st2) := st1.pop
    let sum : Byte := byte31 a + byte31 b
    .cont { s with pc := s.pc + 1, stack := st2.push (wordOfByte sum) }
  | .address =>
    .cont { s with pc := s.pc + 1,
                   stack := s.stack.push (List.replicate 12 (0 : Byte) ++ msg.destination) }
  | .calldataload =>
    let (w, st1) := s.stack.pop
    let offset := (byte31 w).val
    let copy_size :=
      if offset < msg.input.length then
        if msg.input.length - offset > 32 then 32 else msg.input.length - offset
      else 0
    let value := (msg.input.drop offset).take copy_size ++ List.replicate (32 - copy_size) (0 : Byte)
    .cont { s with pc := s.pc + 1, stack := st1.push value }
  | .number =>
    .cont { s with pc := s.pc + 1,
                   stack := s.stack.push (wordOfByte (intToByte host.getTxContext.blockNumber)) }
  | .mstore =>
    let (iw, st1) := s.stack.pop
    let (value, st2) := st1.pop
    .cont { s with pc := s.pc + 1, stack := st2,
                   memory := s.memory.set (byte31 iw).val value 32 }
  | .sload =>
    let (index, st1) := s.stack.pop
    .cont { s with pc := s.pc + 1,
                   stack := st1.push (host.getStorage msg.destination index) }
  | .sstore =>
    let (_, st1) := s.stack.pop
    let (_, st2) := st1.pop
    .cont { s with pc := s.pc + 1, stack := st2 }
  | .msize =>
    .cont { s with pc := s.pc + 1,
                   stack := s.stack.push (wordOfByte (natToByte s.memory.size)) }
  | .push1 =>
    let b := code.getD (s.pc + 1) 0
    .cont { s with pc := s.pc + 2, stack := s.stack.push (wordOfByte b) }
  | .dup1 =>
    let (v, st1) := s.stack.pop
    .cont { s with pc := s.pc + 1, stack := (st1.push v).push v }
  | .call =>
    let (gw, st1) := s.stack.pop
    let (aw, st2) := st1.pop
    let dest := (aw.drop 12).take 20
    let (vw, st3) := st2.pop
    let (iow, st4) := st3.pop
    let in_off := (byte31 iow).val
    let (ilw, st5) := st4.pop
    let in_len := (byte31 ilw).val
    let (oow, st6) := st5.pop
    let out_off := (byte31 oow).val
    let (olw, st7) := st6.pop
    let out_len := (byte31 olw).val
    let res := host.call ⟨((byte31 gw).val : Int), dest, vw, s.memory.read in_off in_len⟩
    let flag : Byte := if res.status = .Success then 1 else 0
    let st8 := st7.push (wordOfByte flag)
    let n := if out_len > res.output.length then res.output.length else out_len
    let acquired := s.unreleased + (if res.hasRelease then 1 else 0)
    let released := if res.hasRelease then acquired - 1 else acquired
    .cont { s with pc := s.pc + 1, stack := st8,
                   memory := s.memory.set out_off res.output n,
                   unreleased := released }
  | .ret =>
    let (iw, st1) := s.stack.pop
    let (sw, _) := st1.pop
    .halt ⟨.Success, s.gasLeft, s.memory.read (byte31 iw).val (byte31 sw).val⟩
  | .revert =>
    if rev < EVMC_BYZANTIUM then
      .halt ⟨.UndefinedInstruction, 0, []⟩
    else
      let (iw, st1) := s.stack.pop
      let (sw, _) := st1.pop
      .halt ⟨.Revert, s.gasLeft, s.memory.read (byte31 iw).val (byte31 sw).val⟩
  | .undefined =>
    .halt ⟨.UndefinedInstruction, 0, []⟩

/-- One iteration of the dispatch loop body (source lines 120-274): charge one
gas, fail with `OUT_OF_GAS` if the budget went negative, otherwise decode the
byte at `pc` and execute its case. -/
def step (host : Host) (msg : Msg) (rev : Int) (code : List Byte) (s : EState) : StepRes :=
  if s.gasLeft - 1 < 0 then .halt ⟨.OutOfGas, 0, []⟩
  else exec host msg rev code { s with gasLeft := s.gasLeft - 1 } (decode (code.getD s.pc 0))

/-- The dispatch loop `for (pc = 0; pc < code_size; pc++)`: run steps until a
halting case returns or the program counter passes the end of code (source
line 277 then returns `Success` with the remaining gas and empty output).
The loop needs no more than `code.length` iterations because every step
advances `pc`; the fuel-exhausted base case returns the same result as the
end-of-code exit and is unreachable for `fuel = code.length`. -/
def execLoop (host : Host) (msg : Msg) (rev : Int) (code : List Byte) :
    Nat → EState → EResult
  | 0, s => ⟨.Success, s.gasLeft, []⟩
  | fuel + 1, s =>
    if code.length ≤ s.pc then ⟨.Success, s.gasLeft, []⟩
    else
      match step host msg rev code s with
      | .halt r => r
      | .cont s' => execLoop host msg rev code fuel s'

/-- The dispatch loop again, returning the execution state at the moment the
loop stops (at the halting instruction, at the end of code, or at fuel
exhaustion) instead of the result; used to observe the stack and memory. -/
def runState (host : Host) (msg : Msg) (rev : Int) (code : List Byte) :
    Nat → EState → EState
  | 0, s => s
  | fuel + 1, s =>
    if code.length ≤ s.pc then s
    else
      match step host msg rev code s with
      | .halt _ => s
      | .cont s' => runState host msg rev code fuel s'

/-- The initial execution state (source lines 116-118): `pc = 0`, `gas_left =
msg->gas`, fresh stack and zeroed memory; `junk` gives the contents of the
uninitialized stack array. -/
def initState (junk : Int → Word) (gas : Int) : EState :=
  { pc := 0, gasLeft := gas, stack := { sp := 0, vals := junk },
    memory := { size := 0, data := fun _ => 0 }, unreleased := 0 }

/-- The `execute` entry point (source lines 103-278). -/
def execute (host : Host) (msg : Msg) (rev : Int) (code : List Byte)
    (junk : Int → Word) : EResult :=
  execLoop host msg rev code code.length (initState junk msg.gas)

/-- Whether an instruction's switch case always leaves the dispatch loop
(`return` from within the switch).  REVERT returns in both of its branches. -/
def instrHalts : Instr → Bool
  | .stop => true
  | .ret => true
  | .revert => true
  | .undefined => true
  | _ => false

/-- How far an instruction advances the program counter: PUSH1 consumes one
immediate byte (`pc++` inside the case plus the loop's `pc++`). -/
def instrWidth : Instr → Nat
  | .push1 => 2
  | _ => 1

/-- The number of gas charges (equivalently, of dispatched instructions,
the faulting one included) the code performs when run from `pc` with an
unbounded gas budget.  It depends only on the code bytes, never on the stack,
memory or host, because the example VM has no jump instructions. -/
def countInstrs (code : List Byte) : Nat → Nat → Nat
  | 0, _ => 0
  | fuel + 1, pc =>
    if code.length ≤ pc then 0
    else
      let i := decode (code.getD pc 0)
      if instrHalts i then 1 else 1 + countInstrs code fuel (pc + instrWidth i)

/-- Result of `evmc_vm::set_option` (`evmc_set_option_result`). -/
inductive SetOptionResult where
  | success
  | invalidName
  | invalidValue
deriving DecidableEq

/-- The per-instance state of the example VM: the verbosity level. -/
structure VMState where
  verbose : Int
deriving DecidableEq

/-- Hexadecimal digit value of a character, or 99 for a non-digit (so that the
`< base` test rejects it for every base the VM uses). -/
def charVal (c : Char) : Nat :=
  if '0' ≤ c ∧ c ≤ '9' then c.toNat - '0'.toNat
  else if 'a' ≤ c ∧ c ≤ 'f' then c.toNat - 'a'.toNat + 10
  else if 'A' ≤ c ∧ c ≤ 'F' then c.toNat - 'A'.toNat + 10
  else 99

/-- Greedily consume digits of the given base, returning the accumulated value
and the number of characters consumed. -/
def takeDigits (base : Nat) : List Char → Nat → Nat × Nat
  | [], acc => (acc, 0)
  | c :: cs, acc =>
    if charVal c < base then
      let (v, n) := takeDigits base cs (acc * base + charVal c)
      (v, n + 1)
    else (acc, 0)

/-- Whether a character is in the C `isspace` class. -/
def isSpaceChar (c : Char) : Bool :=
  c = ' ' ∨ c = '\t' ∨ c = '\n' ∨ c = '\x0b' ∨ c = '\x0c' ∨ c = '\r'

/-- Modelled from the C standard library: `strtol(value, &end, 0)` as called
by `set_option` (source line 59), which is not part of this repository.
Base 0 means: optional whitespace and sign, then a `0x`/`0X` prefix selects
hexadecimal, a leading `0` selects octal, anything else decimal.  Returns
`none` exactly when `end == value`, i.e. when no character of a number was
consumed.  Overflow clamping to `LONG_MAX`/`LONG_MIN` is not modelled: clamped
values lie far outside `[-1, 9]`, so `set_option`'s verdict is unaffected. -/
def strtol0 (s : List Char) : Option Int :=
  let s1 := s.dropWhile isSpaceChar
  let signed : Bool × List Char :=
    match s1 with
    | '-' :: r => (true, r)
    | '+' :: r => (false, r)
    | _ => (false, s1)
  let neg := signed.1
  let apply : Nat → Int := fun v => if neg then -(v : Int) else (v : Int)
  match signed.2 with
  | '0' :: c :: r =>
    if c = 'x' ∨ c = 'X' then
      let (v, n) := takeDigits 16 r 0
      if n = 0 then some (apply 0) else some (apply v)
    else
      let (v, _) := takeDigits 8 (c :: r) 0
      some (apply v)
  | '0' :: [] => some (apply 0)
  | rest =>
    let (v, n) := takeDigits 10 rest 0
    if n = 0 then none else some (apply v)

/-- The `set_option` method of the example VM (source lines 48-69).  The name
`set_option` itself is a reserved token in Lean, hence the camel-case name.
`value == nullptr` is modelled as `none`. -/
def setOption (vm : VMState) (name : String) (value : Option String) :
    SetOptionResult × VMState :=
  if name = "verbose" then
    match value with
    | none => (.invalidValue, vm)
    | some str =>
      match strtol0 str.toList with
      | none => (.invalidValue, vm)
      | some v =>
        if v > 9 ∨ v < -1 then (.invalidValue, vm)
        else (.success, { vm with verbose := v })
  else (.invalidName, vm)

/-- The value of a 32-byte big-endian word as a natural number. -/
def wordToNat (w : Word) : Nat := w.foldl (fun acc b => acc * 256 + b.val) 0

/-- The canonical 32-byte big-endian encoding of a natural number modulo
2^256. -/
def natToWord (n : Nat) : Word :=
  (List.range 32).map fun i => natToByte (n / 256 ^ (31 - i))

/-- Modelled from the spec: the ADD semantics the specification prescribes,
`r = (a + b) mod word-range` over the full 256-bit word (spec section 4.4 and
section 3, which forbids truncating to a single byte).  Written only to be
compared against the source's `exec .add`. -/
def specAddWord (a b : Word) : Word :=
  natToWord ((wordToNat a + wordToNat b) % 2 ^ 256)

end ExampleVM

namespace ExampleVM

/-- Concrete host fixture for witnesses and counterexamples. -/
def host0 : Host :=
  { getStorage := fun _ _ => zeroWord, getTxContext := ⟨0⟩,
    call := fun _ => ⟨.Success, 0, [], false⟩ }

/-- Concrete junk fixture: every uninitialized stack slot reads as zero. -/
def junk0 : Int → Word := fun _ => zeroWord

/-- Concrete 20-byte address fixture. -/
def addr0 : List Byte := List.replicate 20 (0 : Byte)

/-- Gas-accounting contract for a loop run started with gas `g` whose
unlimited-gas charge count is `n`: a normal halt returns `g - n`, out-of-gas
happens exactly when `g < n`, and the failure returns carry zero gas. -/
def GasSpec (r : EResult) (g : Int) (n : Nat) : Prop :=
  ((r.status = .Success ∨ r.status = .Revert) → r.gasLeft = g - n) ∧
  (r.status = .OutOfGas ↔ g < (n : Int)) ∧
  ((r.status = .OutOfGas ∨ r.status = .UndefinedInstruction) → r.gasLeft = 0)

theorem gasSpec_lift (r : EResult) (g : Int) (n : Nat)
    (h : GasSpec r (g - 1) n) : GasSpec r g (1 + n) := by
  obtain ⟨h1, h2, h3⟩ := h
  refine ⟨fun hs => ?_, ?_, h3⟩
  · have := h1 hs
    push_cast at this ⊢
    omega
  · rw [h2]
    push_cast
    omega

theorem gasSpec_end (g : Int) (out : List Byte) (hg : 0 ≤ g) :
    GasSpec ⟨.Success, g, out⟩ g 0 := by
  refine ⟨fun _ => by simp, by simp; omega, fun hs => by simp at hs⟩

theorem gasSpec_stop (g : Int) (out : List Byte) (hg : ¬ g - 1 < 0) :
    GasSpec ⟨.Success, g - 1, out⟩ g 1 := by
  refine ⟨fun _ => by simp, by simp; omega, fun hs => by simp at hs⟩

theorem gasSpec_revert (g : Int) (out : List Byte) (hg : ¬ g - 1 < 0) :
    GasSpec ⟨.Revert, g - 1, out⟩ g 1 := by
  refine ⟨fun _ => by simp, by simp; omega, fun hs => by simp at hs⟩

theorem gasSpec_undef (g : Int) (hg : ¬ g - 1 < 0) :
    GasSpec ⟨.UndefinedInstruction, 0, []⟩ g 1 := by
  refine ⟨fun hs => by simp at hs, by simp; omega, fun _ => rfl⟩

theorem gasSpec_oog (g : Int) (n : Nat) (hg0 : 0 ≤ g) (hg : g - 1 < 0)
    (hn : 1 ≤ n) : GasSpec ⟨.OutOfGas, 0, []⟩ g n := by
  refine ⟨fun hs => by simp at hs, by simp; omega, fun _ => rfl⟩

theorem countInstrs_pos (code : List Byte) (fuel pc : Nat)
    (hpc : ¬ code.length ≤ pc) : 1 ≤ countInstrs code (fuel + 1) pc := by
  simp only [countInstrs, if_neg hpc]
  split <;> omega

theorem execLoop_succ (host : Host) (msg : Msg) (rev : Int) (code : List Byte)
    (fuel : Nat) (s : EState) (hpc : ¬ code.length ≤ s.pc) :
    execLoop host msg rev code (fuel + 1) s =
      match step host msg rev code s with
      | .halt r => r
      | .cont s1 => execLoop host msg rev code fuel s1 := by
  simp only [execLoop, if_neg hpc]

theorem step_eq (host : Host) (msg : Msg) (rev : Int) (code : List Byte)
    (s : EState) (hgas : ¬ s.gasLeft - 1 < 0) :
    step host msg rev code s =
      exec host msg rev code { s with gasLeft := s.gasLeft - 1 }
        (decode (code.getD s.pc 0)) := by
  unfold step
  rw [if_neg hgas]

theorem step_oog (host : Host) (msg : Msg) (rev : Int) (code : List Byte)
    (s : EState) (hgas : s.gasLeft - 1 < 0) :
    step host msg rev code s = .halt ⟨.OutOfGas, 0, []⟩ := by
  unfold step
  rw [if_pos hgas]

theorem countInstrs_succ (code : List Byte) (fuel pc : Nat)
    (hpc : ¬ code.length ≤ pc) :
    countInstrs code (fuel + 1) pc =
      if instrHalts (decode (code.getD pc 0)) then 1
      else 1 + countInstrs code fuel (pc + instrWidth (decode (code.getD pc 0))) := by
  simp only [countInstrs, if_neg hpc]

/-- Gas accounting of the dispatch loop: started at `pc` with budget `g ≥ 0`,
a `Success`/`Revert` halt returns `g` minus the number of charged
instructions, `OutOfGas` occurs exactly when `g` is smaller than that number,
and both failure halts return zero gas. -/
theorem execLoop_spec (host : Host) (msg : Msg) (rev : Int) (code : List Byte) :
    ∀ (fuel pc : Nat) (g : Int) (stack : Stack) (mem : Memory) (unre : Nat),
    0 ≤ g →
    GasSpec (execLoop host msg rev code fuel ⟨pc, g, stack, mem, unre⟩) g
      (countInstrs code fuel pc) := by
  intro fuel
  induction fuel with
  | zero =>
    intro pc g stack mem unre hg
    exact gasSpec_end g [] hg
  | succ fuel ih =>
    intro pc g stack mem unre hg
    by_cases hpc : code.length ≤ pc
    · simp only [execLoop, countInstrs]
      rw [if_pos hpc, if_pos hpc]
      exact gasSpec_end g [] hg
    · rw [execLoop_succ host msg rev code fuel _ hpc]
      by_cases hgas : g - 1 < 0
      · rw [step_oog host msg rev code _ hgas]
        exact gasSpec_oog g _ hg hgas (countInstrs_pos code fuel pc hpc)
      · rw [step_eq host msg rev code _ hgas,
          countInstrs_succ code fuel pc hpc]
        cases hi : decode (code.getD pc 0) with
        | stop => exact gasSpec_stop g [] hgas
        | add => exact gasSpec_lift _ _ _ (ih (pc + 1) (g - 1) _ _ _ (by omega))
        | address => exact gasSpec_lift _ _ _ (ih (pc + 1) (g - 1) _ _ _ (by omega))
        | calldataload => exact gasSpec_lift _ _ _ (ih (pc + 1) (g - 1) _ _ _ (by omega))
        | number => exact gasSpec_lift _ _ _ (ih (pc + 1) (g - 1) _ _ _ (by omega))
        | mstore => exact gasSpec_lift _ _ _ (ih (pc + 1) (g - 1) _ _ _ (by omega))
        | sload => exact gasSpec_lift _ _ _ (ih (pc + 1) (g - 1) _ _ _ (by omega))
        | sstore => exact gasSpec_lift _ _ _ (ih (pc + 1) (g - 1) _ _ _ (by omega))
        | msize => exact gasSpec_lift _ _ _ (ih (pc + 1) (g - 1) _ _ _ (by omega))
        | push1 => exact gasSpec_lift _ _ _ (ih (pc + 2) (g - 1) _ _ _ (by omega))
        | dup1 => exact gasSpec_lift _ _ _ (ih (pc + 1) (g - 1) _ _ _ (by omega))
        | call => exact gasSpec_lift _ _ _ (ih (pc + 1) (g - 1) _ _ _ (by omega))
        | ret => exact gasSpec_stop g _ hgas
        | revert =>
          by_cases hrev : rev < EVMC_BYZANTIUM
          · simp only [exec]
            rw [if_pos hrev]
            exact gasSpec_undef g hgas
          · simp only [exec]
            rw [if_neg hrev]
            exact gasSpec_revert g _ hgas
        | undefined => exact gasSpec_undef g hgas

/-- The statuses the dispatch loop can actually construct. -/
def StatusOk (r : EResult) : Prop :=
  r.status = .Success ∨ r.status = .Revert ∨ r.status = .OutOfGas ∨
    r.status = .UndefinedInstruction

theorem execLoop_status (host : Host) (msg : Msg) (rev : Int) (code : List Byte) :
    ∀ (fuel : Nat) (s : EState), StatusOk (execLoop host msg rev code fuel s) := by
  intro fuel
  induction fuel with
  | zero => intro s; exact Or.inl rfl
  | succ fuel ih =>
    intro s
    by_cases hpc : code.length ≤ s.pc
    · simp only [execLoop]
      rw [if_pos hpc]
      exact Or.inl rfl
    · rw [execLoop_succ host msg rev code fuel s hpc]
      by_cases hgas : s.gasLeft - 1 < 0
      · rw [step_oog host msg rev code s hgas]
        exact Or.inr (Or.inr (Or.inl rfl))
      · rw [step_eq host msg rev code s hgas]
        cases hi : decode (code.getD s.pc 0) with
        | stop => exact Or.inl rfl
        | add => exact ih _
        | address => exact ih _
        | calldataload => exact ih _
        | number => exact ih _
        | mstore => exact ih _
        | sload => exact ih _
        | sstore => exact ih _
        | msize => exact ih _
        | push1 => exact ih _
        | dup1 => exact ih _
        | call => exact ih _
        | ret => exact Or.inl rfl
        | revert =>
          by_cases hrev : rev < EVMC_BYZANTIUM
          · simp only [exec]
            rw [if_pos hrev]
            exact Or.inr (Or.inr (Or.inr rfl))
          · simp only [exec]
            rw [if_neg hrev]
            exact Or.inr (Or.inl rfl)
        | undefined => exact Or.inr (Or.inr (Or.inr rfl))

end ExampleVM

namespace ExampleVM

theorem Memory.set_data_outside (m : Memory) (index : Nat) (v : List Byte)
    (len i : Nat) (h : i < index ∨ index + len ≤ i) :
    (Memory.set m index v len).data i = m.data i := by
  simp only [Memory.set]
  split
  · omega
  · rfl

theorem Memory.set_data_high (m : Memory) (index : Nat) (v : List Byte)
    (len i : Nat) (hidx : index < 256) (hlen : len ≤ 255) (hi : 1024 ≤ i) :
    (Memory.set m index v len).data i = m.data i :=
  Memory.set_data_outside m index v len i (Or.inr (by omega))

theorem runState_succ (host : Host) (msg : Msg) (rev : Int) (code : List Byte)
    (fuel : Nat) (s : EState) (hpc : ¬ code.length ≤ s.pc) :
    runState host msg rev code (fuel + 1) s =
      match step host msg rev code s with
      | .halt _ => s
      | .cont s1 => runState host msg rev code fuel s1 := by
  simp only [runState, if_neg hpc]

/-- A single continuing step never writes a memory byte at index 1024 or
beyond: MSTORE writes 32 bytes at a one-byte offset, and CALL writes at most
255 bytes at a one-byte offset, so both regions stay inside the source's
1024-byte buffer; no other instruction writes memory. -/
theorem step_memory_high (host : Host) (msg : Msg) (rev : Int) (code : List Byte)
    (s s1 : EState) (h : step host msg rev code s = .cont s1) (i : Nat)
    (hi : 1024 ≤ i) : s1.memory.data i = s.memory.data i := by
  by_cases hgas : s.gasLeft - 1 < 0
  · rw [step_oog host msg rev code s hgas] at h
    exact StepRes.noConfusion h
  · rw [step_eq host msg rev code s hgas] at h
    cases hd : decode (code.getD s.pc 0) <;> rw [hd] at h <;>
      simp only [exec, Stack.pop, Stack.push] at h
    · exact StepRes.noConfusion h
    · cases h; rfl
    · cases h; rfl
    · cases h; rfl
    · cases h; rfl
    · cases h
      exact Memory.set_data_high _ _ _ _ _ (Fin.is_lt _) (by norm_num) hi
    · cases h; rfl
    · cases h; rfl
    · cases h; rfl
    · cases h; rfl
    · cases h; rfl
    · cases h
      refine Memory.set_data_high _ _ _ _ _ (Fin.is_lt _) ?_ hi
      have hb :=
        Fin.is_lt (byte31 (s.stack.vals (s.stack.sp - 1 - 1 - 1 - 1 - 1 - 1 - 1)))
      split <;> omega
    · exact StepRes.noConfusion h
    · split at h <;> exact StepRes.noConfusion h
    · exact StepRes.noConfusion h

/-- Invariant propagation: starting from a state whose memory is zero at and
beyond index 1024, every state the loop passes through keeps that region
zero. -/
theorem runState_high_mem (host : Host) (msg : Msg) (rev : Int) (code : List Byte) :
    ∀ (fuel : Nat) (s : EState),
    (∀ j, 1024 ≤ j → s.memory.data j = 0) →
    ∀ i, 1024 ≤ i → (runState host msg rev code fuel s).memory.data i = 0 := by
  intro fuel
  induction fuel with
  | zero => intro s hs i hi; exact hs i hi
  | succ fuel ih =>
    intro s hs i hi
    by_cases hpc : code.length ≤ s.pc
    · simp only [runState]
      rw [if_pos hpc]
      exact hs i hi
    · rw [runState_succ host msg rev code fuel s hpc]
      cases hstep : step host msg rev code s with
      | halt r => exact hs i hi
      | cont s1 =>
        exact ih s1 (fun j hj =>
          (step_memory_high host msg rev code s s1 hstep j hj).trans (hs j hj)) i hi

end ExampleVM

namespace ExampleVM

theorem ite_min (a b : Nat) : (if b < a then b else a) = min a b := by
  rcases Nat.lt_or_ge b a with h | h
  · have hn : ¬ a ≤ b := by omega
    rw [if_pos h, Nat.min_def, if_neg hn]
  · have hn : ¬ b < a := by omega
    rw [if_neg hn, Nat.min_def, if_pos h]

/-- C7: executing an empty code buffer returns immediately with `Success`,
`gas_left` equal to the initial gas, and empty output (source lines 120 and
277; the loop body never runs). -/
theorem empty_code_success (host : Host) (msg : Msg) (rev : Int)
    (junk : Int → Word) :
    execute host msg rev [] junk = ⟨.Success, msg.gas, []⟩ := rfl

/-- C2 (amended): pop on an empty stack is an unchecked read below the stack
base, not an error.  No execution ever returns `StackUnderflow` — every
result status is `Success`, `Revert`, `OutOfGas` or `UndefinedInstruction` —
and the ADD case run on an empty stack reads the junk contents of slots
-1 and -2 of the stack array. -/
theorem pop_empty_is_unchecked_read :
    (∀ (host : Host) (msg : Msg) (rev : Int) (code : List Byte)
      (junk : Int → Word),
      (execute host msg rev code junk).status = .Success ∨
      (execute host msg rev code junk).status = .Revert ∨
      (execute host msg rev code junk).status = .OutOfGas ∨
      (execute host msg rev code junk).status = .UndefinedInstruction) ∧
    (∀ (host : Host) (msg : Msg) (rev : Int) (junk : Int → Word),
      ∃ s1, step host msg rev [(0x01 : Byte)] (initState junk 9) = .cont s1 ∧
        s1.stack.vals (-2) =
          wordOfByte (byte31 (junk (-1)) + byte31 (junk (-2))) ∧
        s1.stack.sp = -1) := by
  constructor
  · intro host msg rev code junk
    exact execLoop_status host msg rev code code.length _
  · intro host msg rev junk
    exact ⟨_, rfl, rfl, rfl⟩

/-- C2 counterexample: executing ADD, an opcode that pops twice, on an empty
stack does not halt with `StackUnderflow`: the run returns `Success`. -/
theorem add_on_empty_stack_not_underflow :
    (execute host0 ⟨addr0, [], 9⟩ 4 [(0x01 : Byte)] junk0).status = .Success ∧
    Status.Success ≠ Status.StackUnderflow := by
  decide

/-- C3 (amended): during execution, every MSTORE / CALL-output memory write
stays inside the source's 1024-byte buffer — bytes at index 1024 and beyond
are never written — because the offsets and lengths are the popped words' low
bytes; and no execution ever fails with `MemoryBoundsExceeded` (the check
does not exist). -/
theorem memory_writes_stay_in_buffer (host : Host) (msg : Msg) (rev : Int)
    (code : List Byte) (junk : Int → Word) (g : Int) (fuel i : Nat)
    (hi : 1024 ≤ i) :
    (runState host msg rev code fuel (initState junk g)).memory.data i = 0 ∧
    (execute host msg rev code junk).status ≠ .MemoryBoundsExceeded := by
  constructor
  · exact runState_high_mem host msg rev code fuel (initState junk g)
      (fun j hj => rfl) i hi
  · intro hC
    have he : execute host msg rev code junk =
        execLoop host msg rev code code.length (initState junk msg.gas) := rfl
    rw [he] at hC
    rcases execLoop_status host msg rev code code.length (initState junk msg.gas)
      with h | h | h | h <;> rw [h] at hC <;> exact Status.noConfusion hC

theorem memory_writes_stay_in_buffer_witness :
    (1024 ≤ 1500) ∧
    ((runState host0 ⟨addr0, [], 9⟩ 4 [(0x52 : Byte)] 1 (initState junk0 9)).memory.data 1500 = 0 ∧
     (execute host0 ⟨addr0, [], 9⟩ 4 [(0x52 : Byte)] junk0).status ≠ .MemoryBoundsExceeded) :=
  ⟨by norm_num,
   memory_writes_stay_in_buffer host0 ⟨addr0, [], 9⟩ 4 [(0x52 : Byte)] junk0 9 1 1500
     (by norm_num)⟩

/-- C3 counterexample: an out-of-bounds request does not fail with
`MemoryBoundsExceeded` — `Memory::set` writes byte 42 at index 1030, beyond
the 1024-byte buffer, and a request whose `index + value_size` overflows
`size_t` wraps the recorded size to 16 instead of failing. -/
theorem memory_set_unchecked :
    (Memory.set ⟨0, fun _ => 0⟩ 1008 (List.replicate 32 (42 : Byte)) 32).data 1030 = 42 ∧
    (1024 ≤ 1030) ∧
    (Memory.set ⟨0, fun _ => 0⟩ (2 ^ 64 - 16) (List.replicate 32 (42 : Byte)) 32).size = 16 := by
  refine ⟨by decide, by norm_num, by decide⟩

/-- C4: for a nonnegative initial gas budget, the returned `gas_left` is
always between 0 and the initial gas, for every code, input, host and
outcome; and any failing (halting) step stops the dispatch loop immediately —
the loop's very next action returns that step's result. -/
theorem gas_left_bounded (host : Host) (msg : Msg) (rev : Int) (code : List Byte)
    (junk : Int → Word) (hg : 0 ≤ msg.gas) :
    (0 ≤ (execute host msg rev code junk).gasLeft ∧
      (execute host msg rev code junk).gasLeft ≤ msg.gas) ∧
    (∀ (fuel : Nat) (s : EState) (r : EResult), ¬ code.length ≤ s.pc →
      step host msg rev code s = .halt r →
      execLoop host msg rev code (fuel + 1) s = r) := by
  constructor
  · have he : execute host msg rev code junk =
        execLoop host msg rev code code.length
          ⟨0, msg.gas, ⟨0, junk⟩, ⟨0, fun _ => 0⟩, 0⟩ := rfl
    obtain ⟨h1, h2, h3⟩ := execLoop_spec host msg rev code code.length 0 msg.gas
      ⟨0, junk⟩ ⟨0, fun _ => 0⟩ 0 hg
    rw [he]
    rcases execLoop_status host msg rev code code.length
        ⟨0, msg.gas, ⟨0, junk⟩, ⟨0, fun _ => 0⟩, 0⟩ with h | h | h | h
    · have hgl := h1 (Or.inl h)
      have hn : ¬ msg.gas < (countInstrs code code.length 0 : Int) := fun hc => by
        have hoog := h2.mpr hc
        rw [h] at hoog
        exact Status.noConfusion hoog
      omega
    · have hgl := h1 (Or.inr h)
      have hn : ¬ msg.gas < (countInstrs code code.length 0 : Int) := fun hc => by
        have hoog := h2.mpr hc
        rw [h] at hoog
        exact Status.noConfusion hoog
      omega
    · have hgl := h3 (Or.inl h)
      omega
    · have hgl := h3 (Or.inr h)
      omega
  · intro fuel s r hpc hstep
    rw [execLoop_succ host msg rev code fuel s hpc, hstep]

theorem gas_left_bounded_witness :
    (0 ≤ (execute host0 ⟨addr0, [], 5⟩ 4 [(0x00 : Byte)] junk0).gasLeft ∧
      (execute host0 ⟨addr0, [], 5⟩ 4 [(0x00 : Byte)] junk0).gasLeft ≤ (5 : Int)) ∧
    (∀ (fuel : Nat) (s : EState) (r : EResult),
      ¬ [(0x00 : Byte)].length ≤ s.pc →
      step host0 ⟨addr0, [], 5⟩ 4 [(0x00 : Byte)] s = .halt r →
      execLoop host0 ⟨addr0, [], 5⟩ 4 [(0x00 : Byte)] (fuel + 1) s = r) :=
  gas_left_bounded host0 ⟨addr0, [], 5⟩ 4 [(0x00 : Byte)] junk0 (by decide)

/-- C10: every instruction costs exactly one gas, charged before its
semantics run; a `Success`/`Revert` halt returns the initial gas minus the
number of executed instructions, and `OutOfGas` is returned exactly when the
initial gas is smaller than the number of instructions the code would
execute. -/
theorem flat_gas_accounting (host : Host) (msg : Msg) (rev : Int)
    (code : List Byte) (junk : Int → Word) (hg : 0 ≤ msg.gas) :
    (((execute host msg rev code junk).status = .Success ∨
      (execute host msg rev code junk).status = .Revert) →
      (execute host msg rev code junk).gasLeft =
        msg.gas - countInstrs code code.length 0) ∧
    ((execute host msg rev code junk).status = .OutOfGas ↔
      msg.gas < (countInstrs code code.length 0 : Int)) := by
  have he : execute host msg rev code junk =
      execLoop host msg rev code code.length
        ⟨0, msg.gas, ⟨0, junk⟩, ⟨0, fun _ => 0⟩, 0⟩ := rfl
  obtain ⟨h1, h2, h3⟩ := execLoop_spec host msg rev code code.length 0 msg.gas
    ⟨0, junk⟩ ⟨0, fun _ => 0⟩ 0 hg
  rw [he]
  exact ⟨h1, h2⟩

theorem flat_gas_accounting_witness :
    (execute host0 ⟨addr0, [], 5⟩ 4 [(0x00 : Byte)] junk0).gasLeft =
      5 - countInstrs [(0x00 : Byte)] 1 0 :=
  (flat_gas_accounting host0 ⟨addr0, [], 5⟩ 4 [(0x00 : Byte)] junk0 (by decide)).1
    (Or.inl (by decide))

end ExampleVM

namespace ExampleVM

/-- C1 (amended): ADD pops two words and pushes the word whose bytes 0-30 are
zero and whose byte 31 is `(a31 + b31) mod 256`, the single-byte sum of the
two popped words' low bytes (source lines 135-144): the arithmetic is 8-bit,
not full 256-bit modular arithmetic. -/
theorem add_pushes_single_byte_sum (host : Host) (msg : Msg) (rev : Int)
    (code : List Byte) (s : EState) (hc : code.getD s.pc 0 = (0x01 : Byte))
    (hg : ¬ s.gasLeft - 1 < 0) :
    ∃ s1, step host msg rev code s = .cont s1 ∧
      s1.pc = s.pc + 1 ∧ s1.gasLeft = s.gasLeft - 1 ∧
      s1.stack.sp = s.stack.sp - 1 ∧
      s1.stack.vals (s.stack.sp - 2) =
        wordOfByte (natToByte
          ((byte31 (s.stack.vals (s.stack.sp - 1))).val +
           (byte31 (s.stack.vals (s.stack.sp - 2))).val)) := by
  rw [step_eq host msg rev code s hg, hc]
  have hd : decode (0x01 : Byte) = Instr.add := rfl
  rw [hd]
  simp only [exec, Stack.pop, Stack.push]
  have e2 : s.stack.sp - 1 - 1 = s.stack.sp - 2 := by ring
  rw [e2]
  refine ⟨_, rfl, rfl, rfl, ?_, ?_⟩
  · ring
  · have hfin : byte31 (s.stack.vals (s.stack.sp - 1)) +
        byte31 (s.stack.vals (s.stack.sp - 2)) =
        natToByte ((byte31 (s.stack.vals (s.stack.sp - 1))).val +
          (byte31 (s.stack.vals (s.stack.sp - 2))).val) := by
      refine Fin.ext ?_
      simp [natToByte, Fin.val_add]
    simp [hfin]

theorem add_pushes_single_byte_sum_witness :
    ∃ s1, step host0 ⟨addr0, [], 9⟩ 4 [(0x01 : Byte)] (initState junk0 9) = .cont s1 ∧
      s1.pc = (initState junk0 9).pc + 1 ∧
      s1.gasLeft = (initState junk0 9).gasLeft - 1 ∧
      s1.stack.sp = (initState junk0 9).stack.sp - 1 ∧
      s1.stack.vals ((initState junk0 9).stack.sp - 2) =
        wordOfByte (natToByte
          ((byte31 ((initState junk0 9).stack.vals
              ((initState junk0 9).stack.sp - 1))).val +
           (byte31 ((initState junk0 9).stack.vals
              ((initState junk0 9).stack.sp - 2))).val)) :=
  add_pushes_single_byte_sum host0 ⟨addr0, [], 9⟩ 4 [(0x01 : Byte)]
    (initState junk0 9) (by decide) (by decide)

/-- Code fixture for the C1 counterexample: load the 32-byte word 256 from
input, PUSH1 1, ADD, store the result at offset 0 and return 32 bytes. -/
def code1 : List Byte :=
  [0x60, 0, 0x35, 0x60, 1, 0x01, 0x60, 0, 0x52, 0x60, 32, 0x60, 0, 0xf3]

/-- Message fixture for the C1 counterexample: input is the word 256. -/
def msg1 : Msg := ⟨addr0, natToWord 256, 20⟩

/-- C1 counterexample: adding the stack words 1 and 256 pushes the word 1,
not `(1 + 256) mod 2^256 = 257` — the observable output of the run is the
encoding of 1 and differs from the full-width modular sum. -/
theorem add_not_full_width :
    (execute host0 msg1 4 code1 junk0).status = .Success ∧
    (execute host0 msg1 4 code1 junk0).output = natToWord 1 ∧
    (execute host0 msg1 4 code1 junk0).output ≠
      specAddWord (natToWord 1) (natToWord 256) := by
  refine ⟨by decide, by decide, by decide⟩

/-- C5 (amended): REVERT under a revision before Byzantium halts with
`UndefinedInstruction` (and zero gas); at or after Byzantium it pops the
offset and length words and halts with `Revert` and output equal to the
memory slice at the LOW BYTE of the popped offset with the LOW BYTE of the
popped length (source lines 265-273). -/
theorem revert_gated_by_revision (host : Host) (msg : Msg) (rev : Int)
    (code : List Byte) (s : EState) (hc : code.getD s.pc 0 = (0xfd : Byte))
    (hg : ¬ s.gasLeft - 1 < 0) :
    (rev < EVMC_BYZANTIUM →
      step host msg rev code s = .halt ⟨.UndefinedInstruction, 0, []⟩) ∧
    (¬ rev < EVMC_BYZANTIUM →
      step host msg rev code s = .halt ⟨.Revert, s.gasLeft - 1,
        s.memory.read (byte31 (s.stack.vals (s.stack.sp - 1))).val
          (byte31 (s.stack.vals (s.stack.sp - 2))).val⟩) := by
  rw [step_eq host msg rev code s hg, hc]
  have hd : decode (0xfd : Byte) = Instr.revert := rfl
  rw [hd]
  simp only [exec, Stack.pop]
  have e2 : s.stack.sp - 1 - 1 = s.stack.sp - 2 := by ring
  rw [e2]
  constructor
  · intro hrev
    rw [if_pos hrev]
  · intro hrev
    rw [if_neg hrev]

theorem revert_gated_by_revision_witness :
    ((4 : Int) < EVMC_BYZANTIUM →
      step host0 ⟨addr0, [], 9⟩ 4 [(0xfd : Byte)] (initState junk0 9) =
        .halt ⟨.UndefinedInstruction, 0, []⟩) ∧
    (¬ (4 : Int) < EVMC_BYZANTIUM →
      step host0 ⟨addr0, [], 9⟩ 4 [(0xfd : Byte)] (initState junk0 9) =
        .halt ⟨.Revert, (initState junk0 9).gasLeft - 1,
          (initState junk0 9).memory.read
            (byte31 ((initState junk0 9).stack.vals
              ((initState junk0 9).stack.sp - 1))).val
            (byte31 ((initState junk0 9).stack.vals
              ((initState junk0 9).stack.sp - 2))).val⟩) :=
  revert_gated_by_revision host0 ⟨addr0, [], 9⟩ 4 [(0xfd : Byte)]
    (initState junk0 9) (by decide) (by decide)

/-- Code fixture for the C5 counterexample: MSTORE the word 42 at offset 0,
push length 32, load the word 256 from input as the offset, REVERT. -/
def code5 : List Byte :=
  [0x60, 42, 0x60, 0, 0x52, 0x60, 32, 0x60, 0, 0x35, 0xfd]

/-- Message fixture for the C5 counterexample: input is the word 256. -/
def msg5 : Msg := ⟨addr0, natToWord 256, 20⟩

/-- C5 counterexample: REVERT popping the offset word 256 and length word 32
returns output taken at offset 0 (the low byte of 256), not the memory slice
[256, 288): that slice is all zeros while the produced output is not. -/
theorem revert_offset_not_full_word :
    (execute host0 msg5 4 code5 junk0).status = .Revert ∧
    Memory.read (runState host0 msg5 4 code5 11 (initState junk0 20)).memory 256 32
      = List.replicate 32 (0 : Byte) ∧
    (execute host0 msg5 4 code5 junk0).output ≠ List.replicate 32 (0 : Byte) := by
  refine ⟨by decide, by decide, by decide⟩

/-- C9: ADDRESS pushes a word depending only on the message, and NUMBER
pushes a word depending only on the host transaction context: any two
executions of the same one of these opcodes with the same message and host
(in particular the two occurrences inside one execution) push the same
word. -/
theorem address_number_idempotent (host : Host) (msg : Msg) (rev : Int)
    (code : List Byte) (s t : EState)
    (hgs : ¬ s.gasLeft - 1 < 0) (hgt : ¬ t.gasLeft - 1 < 0) :
    (code.getD s.pc 0 = (0x30 : Byte) → code.getD t.pc 0 = (0x30 : Byte) →
      ∃ s1 t1, step host msg rev code s = .cont s1 ∧
        step host msg rev code t = .cont t1 ∧
        s1.stack.vals s.stack.sp = t1.stack.vals t.stack.sp) ∧
    (code.getD s.pc 0 = (0x43 : Byte) → code.getD t.pc 0 = (0x43 : Byte) →
      ∃ s1 t1, step host msg rev code s = .cont s1 ∧
        step host msg rev code t = .cont t1 ∧
        s1.stack.vals s.stack.sp = t1.stack.vals t.stack.sp) := by
  constructor
  · intro hcs hct
    rw [step_eq host msg rev code s hgs, hcs,
        step_eq host msg rev code t hgt, hct]
    have hd : decode (0x30 : Byte) = Instr.address := rfl
    rw [hd]
    simp only [exec, Stack.push]
    refine ⟨_, _, rfl, rfl, ?_⟩
    simp
  · intro hcs hct
    rw [step_eq host msg rev code s hgs, hcs,
        step_eq host msg rev code t hgt, hct]
    have hd : decode (0x43 : Byte) = Instr.number := rfl
    rw [hd]
    simp only [exec, Stack.push]
    refine ⟨_, _, rfl, rfl, ?_⟩
    simp

theorem address_number_idempotent_witness :
    ∃ s1 t1,
      step host0 ⟨addr0, [], 9⟩ 4 [(0x30 : Byte)] (initState junk0 9) = .cont s1 ∧
      step host0 ⟨addr0, [], 9⟩ 4 [(0x30 : Byte)] (initState junk0 9) = .cont t1 ∧
      s1.stack.vals (initState junk0 9).stack.sp =
        t1.stack.vals (initState junk0 9).stack.sp :=
  (address_number_idempotent host0 ⟨addr0, [], 9⟩ 4 [(0x30 : Byte)]
      (initState junk0 9) (initState junk0 9) (by decide) (by decide)).1
    (by decide) (by decide)

end ExampleVM

namespace ExampleVM

/-- The nested message one CALL step builds from the stack of `s` (source
lines 232-239): gas = low byte of the 1st popped word, destination = bytes
12-31 of the 2nd, value = the 3rd, input = the memory slice at the low bytes
of the 4th (offset) and 5th (length) popped words. -/
def callMsgOf (s : EState) : CallMsg :=
  { gas := ((byte31 (s.stack.vals (s.stack.sp - 1))).val : Int)
    destination := ((s.stack.vals (s.stack.sp - 2)).drop 12).take 20
    value := s.stack.vals (s.stack.sp - 3)
    input := s.memory.read (byte31 (s.stack.vals (s.stack.sp - 4))).val
      (byte31 (s.stack.vals (s.stack.sp - 5))).val }

/-- The requested output offset of one CALL step: low byte of the 6th popped
word (source line 240). -/
def callOutOff (s : EState) : Nat := (byte31 (s.stack.vals (s.stack.sp - 6))).val

/-- The requested output length of one CALL step: low byte of the 7th popped
word (source line 241). -/
def callOutLen (s : EState) : Nat := (byte31 (s.stack.vals (s.stack.sp - 7))).val

/-- C6 (amended): CALL pops seven operand words (gas, target, value, in-off,
in-len, out-off, out-len, with the offsets, lengths and gas taken as the
popped words' LOW BYTES), invokes the host on the message built from them and
the caller's memory slice, pushes 1 iff the nested status is Success and 0
otherwise, copies exactly `min(out-len8, nested output length)` bytes of the
nested output to memory at out-off8 leaving every other memory byte
untouched, and completes the step with exactly as many unreleased nested
results as before the step (the acquired result is released within the step
whenever it carries a release callback). -/
theorem call_step_contract (host : Host) (msg : Msg) (rev : Int)
    (code : List Byte) (s : EState) (hc : code.getD s.pc 0 = (0xf1 : Byte))
    (hg : ¬ s.gasLeft - 1 < 0) :
    ∃ s1, step host msg rev code s = .cont s1 ∧
      s1.pc = s.pc + 1 ∧ s1.gasLeft = s.gasLeft - 1 ∧
      s1.stack.sp = s.stack.sp - 6 ∧
      s1.stack.vals (s.stack.sp - 7) =
        wordOfByte (if (host.call (callMsgOf s)).status = .Success then 1 else 0) ∧
      (∀ i : Nat,
        i < min (callOutLen s) (host.call (callMsgOf s)).output.length →
        s1.memory.data (callOutOff s + i) =
          (host.call (callMsgOf s)).output.getD i 0) ∧
      (∀ i : Nat,
        i < callOutOff s ∨
          callOutOff s + min (callOutLen s) (host.call (callMsgOf s)).output.length ≤ i →
        s1.memory.data i = s.memory.data i) ∧
      s1.unreleased = s.unreleased := by
  rw [step_eq host msg rev code s hg, hc]
  have hd : decode (0xf1 : Byte) = Instr.call := rfl
  rw [hd]
  simp only [exec, Stack.pop, Stack.push]
  have e2 : s.stack.sp - 1 - 1 = s.stack.sp - 2 := by ring
  have e3 : s.stack.sp - 2 - 1 = s.stack.sp - 3 := by ring
  have e4 : s.stack.sp - 3 - 1 = s.stack.sp - 4 := by ring
  have e5 : s.stack.sp - 4 - 1 = s.stack.sp - 5 := by ring
  have e6 : s.stack.sp - 5 - 1 = s.stack.sp - 6 := by ring
  have e7 : s.stack.sp - 6 - 1 = s.stack.sp - 7 := by ring
  simp only [e2, e3, e4, e5, e6, e7, callMsgOf, callOutOff, callOutLen]
  rw [ite_min]
  refine ⟨_, rfl, rfl, rfl, ?_, ?_, ?_, ?_, ?_⟩
  · ring
  · simp
  · intro i hi
    simp only [Memory.set]
    split
    · rw [Nat.add_sub_cancel_left]
    · rename_i hcond
      exact absurd ⟨Nat.le_add_right _ _, by omega⟩ hcond
  · intro i hi
    exact Memory.set_data_outside _ _ _ _ _ hi
  · rcases Bool.eq_false_or_eq_true ((host.call (callMsgOf s)).hasRelease) with hb | hb <;>
      simp only [callMsgOf] at hb <;> simp [hb]

theorem call_step_contract_witness :
    ∃ s1, step host0 ⟨addr0, [], 9⟩ 4 [(0xf1 : Byte)] (initState junk0 9) = .cont s1 ∧
      s1.pc = (initState junk0 9).pc + 1 ∧
      s1.gasLeft = (initState junk0 9).gasLeft - 1 ∧
      s1.stack.sp = (initState junk0 9).stack.sp - 6 ∧
      s1.stack.vals ((initState junk0 9).stack.sp - 7) =
        wordOfByte (if (host0.call (callMsgOf (initState junk0 9))).status = .Success
          then 1 else 0) ∧
      (∀ i : Nat,
        i < min (callOutLen (initState junk0 9))
          (host0.call (callMsgOf (initState junk0 9))).output.length →
        s1.memory.data (callOutOff (initState junk0 9) + i) =
          (host0.call (callMsgOf (initState junk0 9))).output.getD i 0) ∧
      (∀ i : Nat,
        i < callOutOff (initState junk0 9) ∨
          callOutOff (initState junk0 9) +
            min (callOutLen (initState junk0 9))
              (host0.call (callMsgOf (initState junk0 9))).output.length ≤ i →
        s1.memory.data i = (initState junk0 9).memory.data i) ∧
      s1.unreleased = (initState junk0 9).unreleased :=
  call_step_contract host0 ⟨addr0, [], 9⟩ 4 [(0xf1 : Byte)] (initState junk0 9)
    (by decide) (by decide)

/-- Fixtures for the C6 counterexample: the out-len operand is the word 256
(low byte 0) loaded from input; the host's nested call returns the five
bytes 1,2,3,4,5 with a release callback. -/
def code6 : List Byte :=
  [0x60, 0, 0x35, 0x60, 0, 0x60, 0, 0x60, 0, 0x60, 0, 0x60, 0, 0x60, 0,
   0xf1, 0x60, 5, 0x60, 0, 0xf3]

/-- Host fixture for the C6 counterexample. -/
def host6 : Host :=
  { getStorage := fun _ _ => zeroWord, getTxContext := ⟨0⟩,
    call := fun _ => ⟨.Success, 0, [1, 2, 3, 4, 5], true⟩ }

/-- Message fixture for the C6 counterexample: input is the word 256. -/
def msg6 : Msg := ⟨addr0, natToWord 256, 30⟩

/-- C6 counterexample: with the out-len operand word 256 and a nested output
of 5 bytes, the claim prescribes copying min(256, 5) = 5 bytes, but the VM
copies min(256 mod 256, 5) = 0 bytes: the returned slice of the output region
is all zeros, not the nested output. -/
theorem call_outlen_not_full_word :
    (execute host6 msg6 4 code6 junk0).output = List.replicate 5 (0 : Byte) ∧
    (execute host6 msg6 4 code6 junk0).output ≠
      List.take (min 256 5) [(1 : Byte), 2, 3, 4, 5] := by
  refine ⟨by decide, by decide⟩

/-- C8: `set_option` with name "verbose" succeeds exactly when the value
parses (as by `strtol` base 0) to an integer in [-1, 9], storing it; a null,
unparsable or out-of-range value fails with the invalid-value signal leaving
the stored verbosity unchanged; any other name fails with the invalid-name
signal (source lines 48-69). -/
theorem set_option_verbose_contract (vm : VMState) (name : String)
    (value : Option String) :
    (name ≠ "verbose" → setOption vm name value = (.invalidName, vm)) ∧
    (name = "verbose" →
      (value = none → setOption vm name value = (.invalidValue, vm)) ∧
      (∀ str, value = some str →
        (strtol0 str.toList = none →
          setOption vm name value = (.invalidValue, vm)) ∧
        (∀ v : Int, strtol0 str.toList = some v →
          ((v > 9 ∨ v < -1) → setOption vm name value = (.invalidValue, vm)) ∧
          (-1 ≤ v ∧ v ≤ 9 →
            setOption vm name value = (.success, ⟨v⟩))))) := by
  constructor
  · intro h
    simp only [setOption, if_neg h]
  · intro h
    subst h
    constructor
    · intro hv
      subst hv
      simp only [setOption, if_true]
    · intro str hv
      subst hv
      constructor
      · intro hp
        simp only [setOption, if_true, hp]
      · intro v hp
        constructor
        · intro hr
          simp only [setOption, if_true, hp]
          rw [if_pos hr]
        · intro hr
          have hc : ¬ (v > 9 ∨ v < -1) := by omega
          simp only [setOption, if_true, hp]
          rw [if_neg hc]

theorem set_option_verbose_contract_witness :
    setOption ⟨0⟩ "verbose" (some "5") = (.success, ⟨5⟩) ∧
    setOption ⟨3⟩ "verbose" (some "abc") = (.invalidValue, ⟨3⟩) ∧
    setOption ⟨3⟩ "verbose" (some "10") = (.invalidValue, ⟨3⟩) ∧
    setOption ⟨3⟩ "quiet" (some "5") = (.invalidName, ⟨3⟩) := by
  refine ⟨?_, ?_, ?_, ?_⟩
  · exact ((((set_option_verbose_contract ⟨0⟩ "verbose" (some "5")).2 rfl).2
      "5" rfl).2 5 (by decide)).2 (by norm_num)
  · exact (((set_option_verbose_contract ⟨3⟩ "verbose" (some "abc")).2 rfl).2
      "abc" rfl).1 (by decide)
  · exact ((((set_option_verbose_contract ⟨3⟩ "verbose" (some "10")).2 rfl).2
      "10" rfl).2 10 (by decide)).1 (by norm_num)
  · exact (set_option_verbose_contract ⟨3⟩ "quiet" (some "5")).1 (by decide)

end ExampleVM
